import Mathlib

/-!
Verification development for the MOO dashboard data-processing core
(weis/visualization/moo_dashboard/utils/data_processing.py).

The embedding models the two core components:
 - the Pareto engine, find_pareto_front;
 - the variable resolver, prepare_dataframe_for_splom, together with the
   helpers extract_variable_names / process_yaml_config / get_category.

Machine floats are modelled as Option Rat: none stands for IEEE NaN, some q
for a finite value.  Every comparison against NaN is false, exactly as in
IEEE arithmetic (the code relies on this in its dominance test and in its
bound checks).  The concrete values appearing in the claims are integers,
so no rounding behaviour is lost by the rational model.
-/

set_option maxRecDepth 10000

namespace WEIS

/-- Model of a numpy float: none is IEEE NaN, some q a finite value. -/
abbrev RVal := Option ℚ

/-- Strict greater-than on floats with IEEE NaN semantics: any comparison
involving NaN is false.  Mirrors the comparison on line 350 of
data_processing.py. -/
def rgt : RVal → RVal → Bool
  | some a, some b => decide (b < a)
  | _, _ => false

/-- Strict less-than on floats with IEEE NaN semantics.  Mirrors the
comparison on line 353 of data_processing.py. -/
def rlt : RVal → RVal → Bool
  | some a, some b => decide (a < b)
  | _, _ => false

/-- Non-strict less-or-equal with IEEE NaN semantics.  This operation is not
used by the code itself; it is needed to state the dominance relation the
way the specification words it. -/
def rle : RVal → RVal → Bool
  | some a, some b => decide (a ≤ b)
  | _, _ => false

/-- Negation of a float; the negation of NaN is NaN (numpy: -nan is nan).
Mirrors the column negation on line 330 of data_processing.py. -/
def rneg : RVal → RVal
  | some a => some (-a)
  | none => none

/-- Model of a pandas DataFrame: named columns in order.  Cells are of type
α (RVal for the numeric table fed to the Pareto engine, CellVal below for
the raw table fed to the variable resolver). -/
structure DFrame (α : Type) where
  columns : List (String × List α)

/-- Column lookup by name; a missing column yields the empty column (the
specification requires every requested objective to be present, so this
default never matters for the claims). -/
def DFrame.col {α : Type} (df : DFrame α) (name : String) : List α :=
  (((df.columns.find? (fun p => p.1 == name))).map (fun p => p.2)).getD []

/-- Number of rows: the length of the first column (pandas keeps all
columns the same length). -/
def DFrame.nrows {α : Type} (df : DFrame α) : Nat :=
  ((df.columns.head?).map (fun p => p.2.length)).getD 0

/-- Model of pandas df.empty: true when there are no columns or no rows. -/
def DFrame.isEmptyDF {α : Type} (df : DFrame α) : Bool :=
  df.columns.isEmpty || df.nrows == 0

/-- One numeric cell: df[name][i]; an out-of-range index is read as NaN
(unreachable for well-formed tables). -/
def DFrame.cell (df : DFrame RVal) (name : String) (i : Nat) : RVal :=
  (df.col name).getD i none

/-- Model of str.lower restricted to the ASCII strings used for senses. -/
def strToLower (s : String) : String :=
  String.mk (s.data.map Char.toLower)

/-- Model of the sense lookup with default on line 328: look the objective
name up in the senses mapping, defaulting to "minimize". -/
def senseOf (senses : List (String × String)) (name : String) : String :=
  (((senses.find? (fun p => p.1 == name))).map (fun p => p.2)).getD "minimize"

/-- Sense normalization of one objective value (lines 326-335): when a
senses mapping is given (and, being a Python dict, is truthy, i.e.
non-empty) and the sense of this objective lowercases to "maximize", the
value is negated; otherwise it is returned unchanged. -/
def applySense (senses : Option (List (String × String))) (name : String) (v : RVal) : RVal :=
  match senses with
  | none => v
  | some s =>
      if s.isEmpty then v
      else if strToLower (senseOf s name) == "maximize" then rneg v else v

/-- Row i of the normalized objective matrix obj_values (lines 322-335):
the selected objective columns, with maximize columns negated. -/
def normRow (objectives : List String) (df : DFrame RVal)
    (senses : Option (List (String × String))) (i : Nat) : List RVal :=
  objectives.map (fun nm => applySense senses nm (df.cell nm i))

/-- The inner k-loop of the dominance test (lines 346-354), with its break:
scan the paired objective values of rows j and i; the first component is
better_in_all (false as soon as one coordinate of j is strictly greater),
the second is better_at_least_one (accumulated strictly-less flags seen
before any break). -/
def domScan : List RVal → List RVal → Bool → Bool × Bool
  | [], _, one => (true, one)
  | _ :: _, [], one => (true, one)
  | a :: as, b :: bs, one =>
      if rgt a b then (false, one)
      else domScan as bs (one || rlt a b)

/-- Row vj dominates row vi exactly when the loop finishes with
better_in_all and better_at_least_one both true (line 356). -/
def dominatesRow (vj vi : List RVal) : Bool :=
  (domScan vj vi false).1 && (domScan vj vi false).2

/-- The inner j-loop for a fixed row i (lines 341-358): i is dominated when
some other row j dominates it. -/
def is_dominated (objectives : List String) (df : DFrame RVal)
    (senses : Option (List (String × String))) (n i : Nat) : Bool :=
  (List.range n).any (fun j =>
    (j != i) && dominatesRow (normRow objectives df senses j) (normRow objectives df senses i))

/-- Embedding of find_pareto_front (lines 302-365): guard for empty inputs,
sense normalization, then the O(n^2) dominance scan, collecting the
non-dominated row indices in ascending order. -/
def find_pareto_front (objectives : List String) (df : DFrame RVal)
    (objective_senses : Option (List (String × String))) : List ℕ :=
  if objectives.isEmpty || df.isEmptyDF then []
  else
    (List.range df.nrows).filter
      (fun i => !(is_dominated objectives df objective_senses df.nrows i))

/-- Dominance as the claim words it: the normalized value of j is less than
or equal to that of i in every objective, and strictly less in at least
one.  Under IEEE semantics a NaN coordinate never satisfies the le test. -/
def specDominatesLe (nObj : Nat) (vj vi : List RVal) : Bool :=
  ((List.range nObj).all (fun k => rle (vj.getD k none) (vi.getD k none))) &&
  ((List.range nObj).any (fun k => rlt (vj.getD k none) (vi.getD k none)))

/-- Pareto front as the claim words it (with the le-based dominance):
exactly the rows not dominated by any other row. -/
def paretoFrontSpecLe (objectives : List String) (df : DFrame RVal)
    (senses : Option (List (String × String))) : List ℕ :=
  if objectives.isEmpty || df.isEmptyDF then []
  else
    (List.range df.nrows).filter (fun i =>
      !((List.range df.nrows).any (fun j =>
        (j != i) && specDominatesLe objectives.length
          (normRow objectives df senses j) (normRow objectives df senses i))))

/-- Dominance as the amended claim words it: the normalized value of j is
not strictly greater than that of i in any objective (so a NaN coordinate
never counts as worse), and strictly less in at least one. -/
def specDominatesNoGt (nObj : Nat) (vj vi : List RVal) : Bool :=
  ((List.range nObj).all (fun k => !(rgt (vj.getD k none) (vi.getD k none)))) &&
  ((List.range nObj).any (fun k => rlt (vj.getD k none) (vi.getD k none)))

/-- Pareto front as the amended claim words it: exactly the rows i such
that no other row j is not-worse everywhere and strictly better
somewhere. -/
def paretoFrontSpecNoGt (objectives : List String) (df : DFrame RVal)
    (senses : Option (List (String × String))) : List ℕ :=
  if objectives.isEmpty || df.isEmptyDF then []
  else
    (List.range df.nrows).filter (fun i =>
      !((List.range df.nrows).any (fun j =>
        (j != i) && specDominatesNoGt objectives.length
          (normRow objectives df senses j) (normRow objectives df senses i))))

/-- Model of one raw table cell as seen by the array-decoding chain of
prepare_dataframe_for_splom (lines 207-241).  Each constructor records
which branch of the chain the Python value takes and the numeric content
that branch extracts; the Python-runtime parsing itself (ast.literal_eval,
str.split, float) lives outside this repository and is abstracted to the
outcome it produces:
 - nativeSeq xs: a list or ndarray that np.array(val, dtype=float) converts
   to the float vector xs (line 210);
 - strLitSeq xs: a string that ast.literal_eval parses to a list or tuple
   converting to xs (lines 214-216);
 - strLitScalar x: a string that ast.literal_eval parses to a scalar whose
   float value is x (line 218);
 - strBracket xs: a string on which the literal parse fails but which is
   bracket-delimited with whitespace-separated float tokens xs, possibly
   empty (lines 221-232);
 - strFloat x: a bracket-free string on which the literal parse fails but
   float(val) succeeds with value x (line 235);
 - strBad: a string on which every string decoding fails; the loop then
   executes continue, appending nothing for this row (lines 236-239);
 - scalarVal x: any other value with float(val) = x (line 241);
 - errVal: any other value on which the conversion raises; the exception is
   absorbed by the handler on lines 273-276, which appends NaN to both
   min_values and max_values. -/
inductive CellVal where
  | nativeSeq (xs : List RVal)
  | strLitSeq (xs : List RVal)
  | strLitScalar (x : RVal)
  | strBracket (xs : List RVal)
  | strFloat (x : RVal)
  | strBad
  | scalarVal (x : RVal)
  | errVal
deriving DecidableEq, Repr

/-- Outcome of the decoding chain for one cell: a numeric vector, the
continue path (string parse failure, lines 236-239), or the exception path
(lines 273-276). -/
inductive DecodeResult where
  | ok (arr : List RVal)
  | skip
  | err
deriving DecidableEq, Repr

/-- The decoding chain itself (lines 208-241), mapping each cell to the
array arr it produces, or to the skip/err control path. -/
def decodeCell : CellVal → DecodeResult
  | CellVal.nativeSeq xs => DecodeResult.ok xs
  | CellVal.strLitSeq xs => DecodeResult.ok xs
  | CellVal.strLitScalar x => DecodeResult.ok [x]
  | CellVal.strBracket xs => DecodeResult.ok xs
  | CellVal.strFloat x => DecodeResult.ok [x]
  | CellVal.strBad => DecodeResult.skip
  | CellVal.scalarVal x => DecodeResult.ok [x]
  | CellVal.errVal => DecodeResult.err

/-- The finite (non-NaN) entries of a float vector; np.nanmin and np.nanmax
reduce over exactly these. -/
def finiteVals (xs : List RVal) : List ℚ :=
  xs.filterMap id

/-- Model of float(np.nanmin(arr)) (line 246): the minimum of the finite
entries, none when there is no finite entry.  The guard on line 244
(nonempty and not all NaN) is equivalent to this being some value. -/
def nanminQ (xs : List RVal) : Option ℚ :=
  match finiteVals xs with
  | [] => none
  | a :: as => some (as.foldl min a)

/-- Model of float(np.nanmax(arr)) (line 247). -/
def nanmaxQ (xs : List RVal) : Option ℚ :=
  match finiteVals xs with
  | [] => none
  | a :: as => some (as.foldl max a)

/-- A bound mapping as built by extract_variable_names (line 103): the
float values of whichever of the keys lower and upper the configuration
entry carries. -/
structure BoundPair where
  lower : Option ℚ
  upper : Option ℚ
deriving DecidableEq, Repr

/-- Model of the check lower <= v <= upper on lines 255 and 260, with the
defaults -np.inf and np.inf of lines 251-252 for an absent key: an absent
bound never rejects a finite value. -/
def inBounds (b : BoundPair) (v : ℚ) : Bool :=
  (match b.lower with
   | none => true
   | some lo => decide (lo ≤ v)) &&
  (match b.upper with
   | none => true
   | some hi => decide (v ≤ hi))

/-- One entry of a configuration variable list (lines 101-105): either a
[name, mapping] pair, of which the float values of the lower/upper keys
present are recorded, or a bare name. -/
inductive ConfigItem where
  | pair (name : String) (lower upper : Option ℚ)
  | bare (name : String)
deriving DecidableEq, Repr

/-- Ordered-dict update, the semantics of Python d[k] = v: an existing key
keeps its position and gets the new value, a new key is appended. -/
def dictUpdate {α : Type} : List (String × α) → String → α → List (String × α)
  | [], k, v => [(k, v)]
  | (k', v') :: rest, k, v =>
      if k' == k then (k, v) :: rest else (k', v') :: dictUpdate rest k v

/-- Python key-membership test k in d for the ordered-dict model. -/
def dictMem {α : Type} (m : List (String × α)) (k : String) : Bool :=
  m.any (fun p => p.1 == k)

/-- Python d[k] lookup for the ordered-dict model (first occurrence; the
model only ever builds duplicate-free dicts). -/
def lookupVar {α : Type} (m : List (String × α)) (k : String) : Option α :=
  ((m.find? (fun p => p.1 == k))).map (fun p => p.2)

/-- Embedding of extract_variable_names (lines 90-106): each bare name maps
to Python None (no bound record at all), each pair to the bound mapping it
carries. -/
def extract_variable_names (var_list : List ConfigItem) : List (String × Option BoundPair) :=
  var_list.foldl
    (fun m it =>
      match it with
      | ConfigItem.pair n lo hi => dictUpdate m n (some ⟨lo, hi⟩)
      | ConfigItem.bare n => dictUpdate m n none)
    []

/-- A parsed YAML configuration document as consumed by process_yaml_config
(line 109): three optional variable lists, config.get defaulting each
absent key to the empty list. -/
structure ConfigDoc where
  objectives : Option (List ConfigItem)
  constraints : Option (List ConfigItem)
  design_vars : Option (List ConfigItem)

/-- The categorized variable mapping handed to prepare_dataframe_for_splom
as yaml_data: each group is a dict from base name to Python None (bare
name) or a bound mapping.  A group key may be absent altogether, which the
code reads back with .get defaults. -/
structure YamlData where
  objectives : Option (List (String × Option BoundPair))
  constraints : Option (List (String × Option BoundPair))
  design_vars : Option (List (String × Option BoundPair))

/-- Embedding of process_yaml_config (lines 109-123). -/
def process_yaml_config (config : ConfigDoc) : YamlData :=
  ⟨some (extract_variable_names (config.objectives.getD [])),
   some (extract_variable_names (config.constraints.getD [])),
   some (extract_variable_names (config.design_vars.getD []))⟩

/-- The objectives name list of line 141; a missing yaml_data (Python None
or the falsy empty dict) gives the empty list. -/
def objectivesNames (yaml : Option YamlData) : List String :=
  match yaml with
  | none => []
  | some y => (y.objectives.getD []).map (fun p => p.1)

/-- The constraints name list of line 142. -/
def constraintsNames (yaml : Option YamlData) : List String :=
  match yaml with
  | none => []
  | some y => (y.constraints.getD []).map (fun p => p.1)

/-- The design_vars name list of line 143. -/
def designVarsNames (yaml : Option YamlData) : List String :=
  match yaml with
  | none => []
  | some y => (y.design_vars.getD []).map (fun p => p.1)

/-- Embedding of the helper get_category (lines 173-180): first match wins
in the order objectives, constraints, design_vars. -/
def get_category (yaml : Option YamlData) (var_name : String) : Option String :=
  if (objectivesNames yaml).contains var_name then some "objectives"
  else if (constraintsNames yaml).contains var_name then some "constraints"
  else if (designVarsNames yaml).contains var_name then some "design_vars"
  else none

/-- The constraints-group lookup guarding the bound filter (line 250):
yaml_data truthy, key constraints present, and base_var a key of the
constraints dict.  The result distinguishes no entry (no filtering), the
entry Python None (a bare name; the subsequent .get on None raises), and a
bound mapping. -/
def constraintEntry (yaml : Option YamlData) (base_var : String) : Option (Option BoundPair) :=
  match yaml with
  | none => none
  | some y =>
      match y.constraints with
      | none => none
      | some cs => lookupVar cs base_var

/-- The body of the per-row loop of the array branch (lines 207-276) for
one cell: decode, honor the skip (continue) and err (absorbed exception)
paths, apply the empty/all-NaN guard of line 244, then the bound filter of
lines 249-267.  Returns none when the row contributes no entry at all
(continue), otherwise the pair appended to (min_values, max_values).  When
the constraints entry is Python None, the attribute access
yaml_data[constraints][base_var].get raises, and the handler of lines
273-276 appends NaN to both lists. -/
def processArrayCell (centry : Option (Option BoundPair)) (val : CellVal) : Option (RVal × RVal) :=
  match decodeCell val with
  | DecodeResult.skip => none
  | DecodeResult.err => some (none, none)
  | DecodeResult.ok arr =>
      match nanminQ arr, nanmaxQ arr with
      | some m, some M =>
          (match centry with
           | none => some (some m, some M)
           | some none => some (none, none)
           | some (some b) =>
               some ((if inBounds b m then some m else none),
                     (if inBounds b M then some M else none)))
      | _, _ => some (none, none)

/-- A processed_vars entry (lines 146-156): the kind tag and the selection
tokens accumulated for this base name. -/
structure VarConfig where
  type : String
  vars : List String
deriving DecidableEq, Repr

/-- Python var.endswith for the two array suffixes (line 148). -/
def strEndsWith (s pat : String) : Bool :=
  List.isSuffixOf pat.data s.data

/-- A selection token requesting an array half (line 148). -/
def isMinMaxToken (v : String) : Bool :=
  strEndsWith v "_min" || strEndsWith v "_max"

/-- Python var.rsplit(sep, 1)[0] for sep an underscore (line 150): the text
before the last underscore, the whole string when there is none. -/
def rsplitBase (v : String) : String :=
  if v.data.contains '_' then
    String.mk (((v.data.reverse.dropWhile (fun c => c != '_')).drop 1).reverse)
  else v

/-- Python name.split(dot)[-1] (lines 188 and 279): the text after the last
dot. -/
def lastSeg (s : String) : String :=
  String.mk ((s.data.reverse.takeWhile (fun c => c != '.')).reverse)

/-- Appending one token to the vars list of an existing key, the effect of
processed_vars[base_var][vars].append(var) on line 153. -/
def dictAppendVar : List (String × VarConfig) → String → String → List (String × VarConfig)
  | [], _, _ => []
  | (k', cfg) :: rest, k, var =>
      if k' == k then (k', ⟨cfg.type, cfg.vars ++ [var]⟩) :: rest
      else (k', cfg) :: dictAppendVar rest k var

/-- One iteration of the selection-parsing loop (lines 147-156): a suffixed
token registers (or extends) an array entry under its base name, any other
token overwrites its own entry with a fresh regular record. -/
def processVarsStep (m : List (String × VarConfig)) (var : String) : List (String × VarConfig) :=
  if isMinMaxToken var then
    dictAppendVar
      (if dictMem m (rsplitBase var) then m else m ++ [(rsplitBase var, ⟨"array", []⟩)])
      (rsplitBase var) var
  else
    dictUpdate m var ⟨"regular", [var]⟩

/-- The full selection-parsing loop building processed_vars. -/
def processVars (selected_vars : List String) : List (String × VarConfig) :=
  selected_vars.foldl processVarsStep []

/-- The parsed-selection state holds an array entry with at least one
accumulated token under the given base name. -/
def ArrayEntryAt (m : List (String × VarConfig)) (base : String) : Prop :=
  ∃ cfg : VarConfig, lookupVar m base = some cfg ∧ cfg.type = "array" ∧ cfg.vars ≠ []

/-- The column names of the raw table, the df.columns membership domain of
lines 161 and 183. -/
def columnNames (df : DFrame CellVal) : List String :=
  df.columns.map (fun p => p.1)

/-- The available_vars accumulation of lines 159-162: the tokens of every
entry whose base name is a column, in entry order. -/
def availableVars (df : DFrame CellVal) : List (String × VarConfig) → List String
  | [] => []
  | (base, cfg) :: rest =>
      (if (columnNames df).contains base then cfg.vars else []) ++ availableVars df rest

/-- An output dimension: display label and value sequence (lines 190-192
and 288-291).  Computed min/max floats are stored as scalar cells. -/
structure Dimension where
  label : String
  values : List CellVal
deriving DecidableEq, Repr

/-- The dimensions contributed by one processed_vars entry (lines 182-291):
nothing for a missing column, the raw column for a regular entry, and the
min/max pair, labeled with the last dot segment of the base name, for an
array entry. -/
def entryDims (df : DFrame CellVal) (yaml : Option YamlData) (e : String × VarConfig) : List Dimension :=
  if !((columnNames df).contains e.1) then []
  else if e.2.type == "regular" then [⟨lastSeg e.1, df.col e.1⟩]
  else
    let minmax := (df.col e.1).filterMap (processArrayCell (constraintEntry yaml e.1))
    let bn := lastSeg e.1
    [⟨bn ++ "_min", (minmax.map (fun p => p.1)).map CellVal.scalarVal⟩,
     ⟨bn ++ "_max", (minmax.map (fun p => p.2)).map CellVal.scalarVal⟩]

/-- The dimensions list accumulated over the whole emission loop, in entry
order. -/
def dimsList (df : DFrame CellVal) (yaml : Option YamlData) : List (String × VarConfig) → List Dimension
  | [] => []
  | e :: rest => entryDims df yaml e ++ dimsList df yaml rest

/-- One emission-loop iteration restricted to its variable_categories
effect (lines 194 and 286-294). -/
def catStep (df : DFrame CellVal) (yaml : Option YamlData)
    (m : List (String × Option String)) (e : String × VarConfig) : List (String × Option String) :=
  if !((columnNames df).contains e.1) then m
  else if e.2.type == "regular" then dictUpdate m (lastSeg e.1) (get_category yaml e.1)
  else
    let bn := lastSeg e.1
    dictUpdate (dictUpdate m (bn ++ "_min") (get_category yaml e.1))
      (bn ++ "_max") (get_category yaml e.1)

/-- The simplified_df under construction: its pandas index length together
with its named columns.  The index length is tracked separately because
pandas takes the index from the first nonempty column assigned and then
enforces it on every later assignment. -/
structure PFrame where
  idxLen : Nat
  cols : List (String × List CellVal)
deriving DecidableEq, Repr

/-- Model of one pandas LIST column assignment simplified_df[name] = vals
(lines 283, 284, where min_values and max_values are plain Python lists),
as performed by the external collaborator pandas: when the frame index is
empty, a nonempty value list installs its length as the new index and
reindexes the existing (necessarily zero-length) columns with NaN, and an
empty value list leaves the index empty; when the frame index is nonempty,
a value list of any other length raises ValueError, modelled as none.
These assignments sit OUTSIDE the per-row try/except of lines 208-276, so
a raise aborts the whole call. -/
def pandasSetCol (f : PFrame) (name : String) (vals : List CellVal) : Option PFrame :=
  if f.idxLen = 0 then
    if vals.length = 0 then some ⟨0, dictUpdate f.cols name vals⟩
    else some ⟨vals.length,
      dictUpdate
        (f.cols.map (fun p => (p.1, List.replicate vals.length (CellVal.scalarVal none))))
        name vals⟩
  else if vals.length = f.idxLen then some ⟨f.idxLen, dictUpdate f.cols name vals⟩
  else none

/-- Reindexing a source column (default integer index 0..n-1) to the frame
index 0..m-1, as pandas does when a Series is assigned: labels beyond the
source length read as NaN, labels beyond the frame index are dropped. -/
def alignSeries (m : Nat) (vals : List CellVal) : List CellVal :=
  (List.range m).map (fun i => vals.getD i (CellVal.scalarVal none))

/-- Model of the pandas SERIES column assignment of line 189, where the
assigned value df[base_var] is a Series carrying the default integer
index of the source table: on an empty frame index it installs the series
as-is (its length becoming the index, existing zero-length columns
reindexed with NaN); on a nonempty frame index pandas ALIGNS the series to
the frame index instead of raising, so this assignment never aborts. -/
def pandasSetSeries (f : PFrame) (name : String) (vals : List CellVal) : PFrame :=
  if f.idxLen = 0 then
    if vals.length = 0 then ⟨0, dictUpdate f.cols name vals⟩
    else ⟨vals.length,
      dictUpdate
        (f.cols.map (fun p => (p.1, List.replicate vals.length (CellVal.scalarVal none))))
        name vals⟩
  else ⟨f.idxLen, dictUpdate f.cols name (alignSeries f.idxLen vals)⟩

/-- One emission-loop iteration restricted to its simplified_df effect
(lines 186-189 and 278-284), threading the possibility that a pandas
assignment raised: the first raise makes the whole fold none. -/
def simpColsStep (df : DFrame CellVal) (yaml : Option YamlData)
    (f : Option PFrame) (e : String × VarConfig) : Option PFrame :=
  match f with
  | none => none
  | some fr =>
      if !((columnNames df).contains e.1) then some fr
      else if e.2.type == "regular" then some (pandasSetSeries fr (lastSeg e.1) (df.col e.1))
      else
        let minmax := (df.col e.1).filterMap (processArrayCell (constraintEntry yaml e.1))
        let bn := lastSeg e.1
        match pandasSetCol fr (bn ++ "_min")
            ((minmax.map (fun p => p.1)).map CellVal.scalarVal) with
        | none => none
        | some fr2 =>
            pandasSetCol fr2 (bn ++ "_max") ((minmax.map (fun p => p.2)).map CellVal.scalarVal)

/-- The sample_id column of line 297: the 0-based row ordinals of the
simplified table.  Its length always equals the frame index length, so the
assignment on line 297 never raises. -/
def sampleIdCol (n : Nat) : List CellVal :=
  (List.range n).map (fun i => CellVal.scalarVal (some (i : ℚ)))

/-- The full result triple of prepare_dataframe_for_splom. -/
structure SplomResult where
  simplified : List (String × List CellVal)
  dimensions : List Dimension
  variable_categories : List (String × Option String)
deriving DecidableEq, Repr

/-- Outcome of one call to prepare_dataframe_for_splom: an uncaught
ValueError from a length-mismatched pandas column assignment (reachable
when the skip of line 239 shortens an array min/max list against an
already established index), the Empty sentinel (None, [], {}) of line 165,
or a normal result triple. -/
inductive SplomOutcome where
  | raised
  | noData
  | result (r : SplomResult)
deriving DecidableEq, Repr

/-- The dimension list of a normal outcome, none for the sentinel and for
an aborted call. -/
def SplomOutcome.dims : SplomOutcome → Option (List Dimension)
  | SplomOutcome.result r => some r.dimensions
  | _ => none

/-- Embedding of prepare_dataframe_for_splom (lines 126-299): parse the
selection, return the Empty sentinel (Python (None, [], {})) when no
selected variable resolves, otherwise run the emission loop; if any pandas
column assignment raises on a length mismatch the call aborts with the
uncaught error, otherwise the sample_id column is appended and the triple
returned. -/
def prepare_dataframe_for_splom (df : DFrame CellVal) (selected_vars : List String)
    (yaml_data : Option YamlData) : SplomOutcome :=
  if (availableVars df (processVars selected_vars)).isEmpty then SplomOutcome.noData
  else
    match (processVars selected_vars).foldl (simpColsStep df yaml_data) (some ⟨0, []⟩) with
    | none => SplomOutcome.raised
    | some fr =>
        SplomOutcome.result
          ⟨dictUpdate fr.cols "sample_id" (sampleIdCol fr.idxLen),
           dimsList df yaml_data (processVars selected_vars),
           (processVars selected_vars).foldl (catStep df yaml_data) []⟩

/-- Concrete two-row numeric table with a NaN coordinate at which the two
rows also differ in another coordinate; rows are (1, 1) and (NaN, 0). -/
def dfNanC1 : DFrame RVal :=
  ⟨[("f1", [some 1, none]), ("f2", [some 1, some 0])]⟩

/-- Concrete one-row, one-objective numeric table. -/
def dfOne : DFrame RVal :=
  ⟨[("f", [some 5])]⟩

/-- Concrete two-row raw table whose array column holds one decodable
bracket string and one string every decoding rejects. -/
def dfC2x : DFrame CellVal :=
  ⟨[("a", [CellVal.strBracket [some 1, some 2], CellVal.strBad])]⟩

/-- Concrete two-row raw table whose array column holds one native numeric
sequence and one string every decoding rejects. -/
def dfC3x : DFrame CellVal :=
  ⟨[("b", [CellVal.nativeSeq [some 2, some 4], CellVal.strBad])]⟩

/-- Concrete one-row raw table with a native single-element sequence. -/
def dfC7x : DFrame CellVal :=
  ⟨[("c", [CellVal.nativeSeq [some 3]])]⟩

/-- Concrete configuration whose constraints group lists the base name c as
a bare name, so its entry is Python None. -/
def yamlC7x : YamlData := ⟨none, some [("c", none)], none⟩

/-- Concrete one-row raw table with a scalar column named x. -/
def dfC8x : DFrame CellVal :=
  ⟨[("x", [CellVal.scalarVal (some 1)])]⟩

/-- Concrete one-row raw table with an array column named y. -/
def dfC8w : DFrame CellVal :=
  ⟨[("y", [CellVal.nativeSeq [some 1, some 2]])]⟩

/-- Concrete two-row raw table with a regular column r and an array column
y whose second cell no decoding accepts. -/
def dfMixed : DFrame CellVal :=
  ⟨[("r", [CellVal.scalarVal (some 1), CellVal.scalarVal (some 2)]),
    ("y", [CellVal.nativeSeq [some 1, some 2], CellVal.strBad])]⟩

/-- The k-loop outcome, with its break, agrees with the zipped pointwise
tests: better_in_all iff no coordinate of vj is strictly greater, and,
conjoined with it, better_at_least_one iff the accumulator or some
coordinate is strictly less. -/
theorem domScan_eq_zip (as : List RVal) : ∀ (bs : List RVal) (acc : Bool),
    ((domScan as bs acc).1 && (domScan as bs acc).2) =
      (((List.zipWith (fun a b => !(rgt a b)) as bs).all (fun x => x)) &&
        (acc || ((List.zipWith rlt as bs).any (fun x => x)))) := by
  induction as with
  | nil => intro bs acc; simp [domScan]
  | cons a as ih =>
      intro bs acc
      cases bs with
      | nil => simp [domScan]
      | cons b bs =>
          by_cases h : rgt a b = true
          · simp [domScan, h]
          · have h' : rgt a b = false := by simpa using h
            simp [domScan, h', ih, Bool.or_assoc]

/-- A zipped all-test over two lists of the same length is the bounded
all-test over coordinate indices. -/
theorem all_zip_eq_range (f : RVal → RVal → Bool) (as : List RVal) : ∀ (bs : List RVal),
    as.length = bs.length →
    ((List.zipWith f as bs).all (fun x => x)) =
      ((List.range as.length).all (fun k => f (as.getD k none) (bs.getD k none))) := by
  induction as with
  | nil => intro bs _; simp
  | cons a as ih =>
      intro bs h
      cases bs with
      | nil => simp at h
      | cons b bs =>
          have hl : as.length = bs.length := by simpa using h
          simp only [List.zipWith_cons_cons, List.all_cons, List.length_cons,
            List.range_succ_eq_map, List.all_map]
          rw [ih bs hl]
          congr 1

/-- A zipped any-test over two lists of the same length is the bounded
any-test over coordinate indices. -/
theorem any_zip_eq_range (f : RVal → RVal → Bool) (as : List RVal) : ∀ (bs : List RVal),
    as.length = bs.length →
    ((List.zipWith f as bs).any (fun x => x)) =
      ((List.range as.length).any (fun k => f (as.getD k none) (bs.getD k none))) := by
  induction as with
  | nil => intro bs _; simp
  | cons a as ih =>
      intro bs h
      cases bs with
      | nil => simp at h
      | cons b bs =>
          have hl : as.length = bs.length := by simpa using h
          simp only [List.zipWith_cons_cons, List.any_cons, List.length_cons,
            List.range_succ_eq_map, List.any_map]
          rw [ih bs hl]
          congr 1

/-- The dominance test of the code, with its break, coincides with the
declarative not-worse-everywhere and strictly-better-somewhere test. -/
theorem dominatesRow_eq_specNoGt (vj vi : List RVal) (n : Nat)
    (hj : vj.length = n) (hi : vi.length = n) :
    dominatesRow vj vi = specDominatesNoGt n vj vi := by
  have hlen : vj.length = vi.length := by rw [hj, hi]
  unfold dominatesRow specDominatesNoGt
  rw [domScan_eq_zip, Bool.false_or, all_zip_eq_range _ _ _ hlen,
    any_zip_eq_range _ _ _ hlen, hj]

/-- The j-loop of the code coincides with the declarative search for a
dominating row. -/
theorem is_dominated_eq (objectives : List String) (df : DFrame RVal)
    (senses : Option (List (String × String))) (n i : Nat) :
    is_dominated objectives df senses n i =
      ((List.range n).any (fun j =>
        (j != i) && specDominatesNoGt objectives.length
          (normRow objectives df senses j) (normRow objectives df senses i))) := by
  unfold is_dominated
  congr 1
  funext j
  rw [dominatesRow_eq_specNoGt _ _ objectives.length (by simp [normRow]) (by simp [normRow])]

/-- Evaluation of the per-row array processing when the cell decodes and
the finite minimum and maximum exist, with no constraints entry. -/
theorem processArrayCell_ok_none (v : CellVal) (arr : List RVal) (m M : ℚ)
    (hdec : decodeCell v = DecodeResult.ok arr)
    (hm : nanminQ arr = some m) (hM : nanmaxQ arr = some M) :
    processArrayCell none v = some (some m, some M) := by
  simp [processArrayCell, hdec, hm, hM]

/-- Evaluation of the per-row array processing when the constraints entry
is the Python None of a bare name: the absorbed AttributeError appends NaN
to both lists. -/
theorem processArrayCell_ok_bare (v : CellVal) (arr : List RVal) (m M : ℚ)
    (hdec : decodeCell v = DecodeResult.ok arr)
    (hm : nanminQ arr = some m) (hM : nanmaxQ arr = some M) :
    processArrayCell (some none) v = some (none, none) := by
  simp [processArrayCell, hdec, hm, hM]

/-- Evaluation of the per-row array processing under a bound mapping. -/
theorem processArrayCell_ok_bounds (b : BoundPair) (v : CellVal) (arr : List RVal) (m M : ℚ)
    (hdec : decodeCell v = DecodeResult.ok arr)
    (hm : nanminQ arr = some m) (hM : nanmaxQ arr = some M) :
    processArrayCell (some (some b)) v =
      some ((if inBounds b m then some m else none),
            (if inBounds b M then some M else none)) := by
  simp [processArrayCell, hdec, hm, hM]

/-- A bound mapping carrying neither lower nor upper behaves exactly as no
constraints entry at all. -/
theorem processArrayCell_empty_bounds (v : CellVal) :
    processArrayCell (some (some ⟨none, none⟩)) v = processArrayCell none v := by
  unfold processArrayCell
  cases hdec : decodeCell v with
  | skip => rfl
  | err => rfl
  | ok arr =>
      cases hm : nanminQ arr with
      | none => rfl
      | some m =>
          cases hM : nanmaxQ arr with
          | none => rfl
          | some M => simp [inBounds]

/-- A base name outside the constraints group has no constraints entry. -/
theorem constraintEntry_none_of_not_mem (yaml : Option YamlData) (base : String)
    (h : (constraintsNames yaml).contains base = false) :
    constraintEntry yaml base = none := by
  cases yaml with
  | none => rfl
  | some y =>
      cases hc : y.constraints with
      | none => simp [constraintEntry, hc]
      | some cs =>
          simp only [constraintEntry, hc]
          unfold lookupVar
          cases hf : cs.find? (fun p => p.1 == base) with
          | none => rfl
          | some p =>
              exfalso
              have hp := List.find?_some hf
              have hmem := List.mem_of_find?_eq_some hf
              have hpb : p.1 = base := by simpa using hp
              have hmem2 : base ∈ cs.map (fun q => q.1) :=
                hpb ▸ List.mem_map_of_mem _ hmem
              have hcon : (constraintsNames (some y)).contains base = true := by
                simpa [constraintsNames, hc] using hmem2
              rw [h] at hcon
              exact Bool.false_ne_true hcon

/-- C1 counterexample: on the two-row table with rows (1, 1) and (NaN, 0),
both objectives minimized, the code keeps exactly row 1, while the le-based
dominance of the claim keeps both rows, because under IEEE semantics the
NaN coordinate of row 1 satisfies neither the le test (so the claim finds
no dominating row for row 0) nor the gt test (so the code treats row 1 as
not worse anywhere and strictly better in the second objective). -/
theorem find_pareto_front_not_le_dominance :
    find_pareto_front ["f1", "f2"] dfNanC1 none = [1] ∧
    paretoFrontSpecLe ["f1", "f2"] dfNanC1 none = [0, 1] ∧
    find_pareto_front ["f1", "f2"] dfNanC1 none ≠
      paretoFrontSpecLe ["f1", "f2"] dfNanC1 none :=
  ⟨by decide, by decide, by decide⟩

/-- C1 amended: for every numeric table, objective-name list, and sense
mapping, find_pareto_front returns exactly the indices of rows i for which
no other row j dominates i, where domination is tested after negating
every column whose sense is maximize (objectives absent from the sense
mapping, or a missing sense mapping, default to minimize): j dominates i
iff the normalized value of j is NOT STRICTLY GREATER than that of i in
every objective (IEEE semantics: a comparison against NaN is false, so a
NaN coordinate never counts as worse) and strictly less in at least one; a
row equal to i in every objective does not dominate i. -/
theorem find_pareto_front_eq_noGt_front (objectives : List String) (df : DFrame RVal)
    (senses : Option (List (String × String))) :
    find_pareto_front objectives df senses = paretoFrontSpecNoGt objectives df senses := by
  unfold find_pareto_front paretoFrontSpecNoGt
  simp only [is_dominated_eq]

/-- C4: comparisons against NaN are false in both directions, and for every
pair of rows that agree in every coordinate in which neither holds NaN,
neither row dominates the other under the dominance test of
find_pareto_front. -/
theorem nan_rows_never_dominate :
    (∀ x : RVal, rlt none x = false ∧ rlt x none = false ∧
      rgt none x = false ∧ rgt x none = false) ∧
    (∀ vi vj : List RVal, vi.length = vj.length →
      (∀ k, k < vi.length →
        vi.getD k none = vj.getD k none ∨ vi.getD k none = none ∨ vj.getD k none = none) →
      dominatesRow vj vi = false ∧ dominatesRow vi vj = false) := by
  constructor
  · intro x
    refine ⟨rfl, ?_, rfl, ?_⟩ <;> cases x <;> rfl
  · intro vi vj hlen hk
    have key : ∀ (as bs : List RVal), as.length = bs.length →
        (∀ k, k < as.length →
          as.getD k none = bs.getD k none ∨ as.getD k none = none ∨ bs.getD k none = none) →
        ∀ acc : Bool, domScan as bs acc = (true, acc) ∧ domScan bs as acc = (true, acc) := by
      intro as
      induction as with
      | nil =>
          intro bs h _ acc
          cases bs with
          | nil => exact ⟨rfl, rfl⟩
          | cons b bs => simp at h
      | cons a as ih =>
          intro bs h hk acc
          cases bs with
          | nil => simp at h
          | cons b bs =>
              have h0 := hk 0 (by simp)
              simp only [List.getD_cons_zero] at h0
              have hgt : rgt a b = false ∧ rgt b a = false ∧
                  rlt a b = false ∧ rlt b a = false := by
                rcases h0 with h0 | h0 | h0
                · subst h0
                  cases a with
                  | none => exact ⟨rfl, rfl, rfl, rfl⟩
                  | some q => simp [rgt, rlt]
                · subst h0
                  cases b <;> exact ⟨rfl, rfl, rfl, rfl⟩
                · subst h0
                  cases a <;> exact ⟨rfl, rfl, rfl, rfl⟩
              have hrest : ∀ k, k < as.length →
                  as.getD k none = bs.getD k none ∨ as.getD k none = none ∨
                    bs.getD k none = none := by
                intro k hklt
                have := hk (k + 1) (by simpa using Nat.succ_lt_succ hklt)
                simpa using this
              have hl : as.length = bs.length := by simpa using h
              have := ih bs hl hrest acc
              constructor
              · simp only [domScan, hgt.1, hgt.2.2.1, if_false, Bool.or_false]
                exact this.1
              · simp only [domScan, hgt.2.1, hgt.2.2.2, if_false, Bool.or_false]
                exact this.2
    have h1 := key vi vj hlen hk false
    unfold dominatesRow
    rw [h1.1, h1.2]
    simp

/-- C4 witness: the rows (1, NaN) and (1, 5) differ only where the first
holds NaN, and neither dominates the other. -/
theorem nan_rows_never_dominate_witness :
    dominatesRow [some 1, some 5] [some 1, none] = false ∧
    dominatesRow [some 1, none] [some 1, some 5] = false :=
  nan_rows_never_dominate.2 [some 1, none] [some 1, some 5] (by decide) (by decide)

/-- C5 counterexample: with a single objective and a one-row table the code
returns the row, not the empty result, because the guard on line 315 only
tests for an empty objective list. -/
theorem find_pareto_front_single_objective_nonempty :
    find_pareto_front ["f"] dfOne none = [0] ∧
    (["f"] : List String).length < 2 ∧
    find_pareto_front ["f"] dfOne none ≠ [] :=
  ⟨by decide, by decide, by decide⟩

/-- C5 amended: for every table and objective selection, if the table is
empty or the objective list is empty (a single objective is NOT enough to
trigger the guard), find_pareto_front returns the empty result; and in all
cases its output is a subset of the row indices 0..n_rows-1. -/
theorem find_pareto_front_guard_and_range (objectives : List String) (df : DFrame RVal)
    (senses : Option (List (String × String))) :
    (objectives = [] ∨ df.isEmptyDF = true → find_pareto_front objectives df senses = []) ∧
    (∀ i ∈ find_pareto_front objectives df senses, i < df.nrows) := by
  constructor
  · intro h
    unfold find_pareto_front
    have : (objectives.isEmpty || df.isEmptyDF) = true := by
      rcases h with h | h
      · subst h; simp
      · simp [h]
    simp [this]
  · intro i hi
    unfold find_pareto_front at hi
    by_cases h : (objectives.isEmpty || df.isEmptyDF) = true
    · rw [if_pos h] at hi
      simp at hi
    · rw [if_neg h] at hi
      have := List.mem_filter.mp hi
      simpa using List.mem_range.mp this.1

/-- C5 witness: at the empty objective list and a concrete table the guard
fires, and row indices of a concrete run are below the row count. -/
theorem find_pareto_front_guard_and_range_witness :
    find_pareto_front [] dfOne none = [] :=
  (find_pareto_front_guard_and_range [] dfOne none).1 (Or.inl rfl)

/-- C2: on a two-row table whose array column holds one decodable bracket
string and one string every decoding rejects, the resolver returns a
non-Empty result whose two dimensions carry a single value each, not two:
the continue on line 239 appends nothing for the rejected row, so the
dimension-length invariant fails. -/
theorem prepare_dimension_length_mismatch :
    (prepare_dataframe_for_splom dfC2x ["a_min", "a_max"] none).dims.map
      (fun ds => ds.map (fun d => d.values.length)) = some [1, 1] ∧
    dfC2x.nrows = 2 :=
  ⟨by decide, by decide⟩

/-- C3: on a two-row table whose array column holds one native numeric
sequence and one string every decoding rejects, the emitted min and max
dimensions hold only the entry of the decodable row; the rejected row is
skipped by the continue on line 239 instead of being recorded as NaN, so
no NaN appears and the later rows of the table no longer line up with the
dimension entries. -/
theorem prepare_skips_unparseable_row :
    (prepare_dataframe_for_splom dfC3x ["b_min"] none).dims =
      some [⟨"b_min", [CellVal.scalarVal (some 2)]⟩,
            ⟨"b_max", [CellVal.scalarVal (some 4)]⟩] ∧
    dfC3x.nrows = 2 :=
  ⟨by decide, by decide⟩

/-- C6: for every array cell that decodes to a vector with finite minimum m
and maximum M, and every constraints entry carrying a bound pair lower and
upper, the per-row processing of prepare_dataframe_for_splom replaces m by
NaN exactly when m falls outside the closed interval, and independently M
by NaN exactly when M falls outside it; values inside pass through
unchanged. -/
theorem bounds_filtering_constraint_minmax (yaml : Option YamlData) (base : String)
    (lo hi : ℚ) (v : CellVal) (arr : List RVal) (m M : ℚ)
    (_hcat : get_category yaml base = some "constraints")
    (hentry : constraintEntry yaml base = some (some ⟨some lo, some hi⟩))
    (hdec : decodeCell v = DecodeResult.ok arr)
    (hm : nanminQ arr = some m) (hM : nanmaxQ arr = some M) :
    processArrayCell (constraintEntry yaml base) v =
      some ((if lo ≤ m ∧ m ≤ hi then some m else none),
            (if lo ≤ M ∧ M ≤ hi then some M else none)) := by
  rw [hentry, processArrayCell_ok_bounds _ v arr m M hdec hm hM]
  have hb : ∀ x : ℚ, inBounds ⟨some lo, some hi⟩ x = decide (lo ≤ x ∧ x ≤ hi) := by
    intro x
    simp [inBounds, Bool.and_eq_true, decide_eq_true_eq]
  simp only [hb]
  by_cases h1 : lo ≤ m ∧ m ≤ hi <;> by_cases h2 : lo ≤ M ∧ M ≤ hi <;>
    simp [h1, h2]

/-- C6 witness: with bound pair [0, 10] and the decoded vector (3, 20), the
minimum 3 passes through and the maximum 20 becomes NaN. -/
theorem bounds_filtering_constraint_minmax_witness :
    processArrayCell (constraintEntry (some ⟨none, some [("c", some ⟨some 0, some 10⟩)], none⟩) "c")
        (CellVal.nativeSeq [some 3, some 20]) = some (some 3, none) := by
  have h := bounds_filtering_constraint_minmax
    (some ⟨none, some [("c", some ⟨some 0, some 10⟩)], none⟩) "c" 0 10
    (CellVal.nativeSeq [some 3, some 20]) [some 3, some 20] 3 20
    (by decide) (by decide) (by decide) (by decide) (by decide)
  rw [h]
  decide

/-- C7 counterexample: a bare-name entry in the constraints group does not
pass the decoded value through: on a one-row table whose cell decodes to
the single value 3, with the base name listed as a bare name under
constraints, both emitted dimension values are NaN, because the entry is
Python None and the .get on line 251 raises an AttributeError that the
handler on lines 273-276 absorbs into NaN. -/
theorem bare_constraint_entry_gives_nan :
    (prepare_dataframe_for_splom dfC7x ["c_min"] (some yamlC7x)).dims =
      some [⟨"c_min", [CellVal.scalarVal none]⟩, ⟨"c_max", [CellVal.scalarVal none]⟩] ∧
    (prepare_dataframe_for_splom dfC7x ["c_min"] (some yamlC7x)).dims ≠
      some [⟨"c_min", [CellVal.scalarVal (some 3)]⟩,
            ⟨"c_max", [CellVal.scalarVal (some 3)]⟩] :=
  ⟨by decide, by decide⟩

/-- C7 amended: for an array-selected variable whose configuration entry
carries no bounds the outcome depends on where the entry lives, and is
never fatal: a bound entry present but missing both lower and upper
behaves exactly as no constraint at all (the decoded min and max pass
through unchanged); a base name absent from the constraints group is never
filtered, wherever else it appears; but a bare-name entry inside the
constraints group yields NaN for both min and max of every decoded row,
through the absorbed per-row AttributeError of lines 251 and 273-276. -/
theorem missing_bounds_behavior :
    (∀ v : CellVal, processArrayCell (some (some ⟨none, none⟩)) v = processArrayCell none v) ∧
    (∀ (yaml : Option YamlData) (base : String), (constraintsNames yaml).contains base = false →
      constraintEntry yaml base = none) ∧
    (∀ (v : CellVal) (arr : List RVal) (m M : ℚ), decodeCell v = DecodeResult.ok arr →
      nanminQ arr = some m → nanmaxQ arr = some M →
      processArrayCell (some (some ⟨none, none⟩)) v = some (some m, some M) ∧
      processArrayCell (some none) v = some (none, none)) := by
  refine ⟨processArrayCell_empty_bounds, constraintEntry_none_of_not_mem, ?_⟩
  intro v arr m M hdec hm hM
  refine ⟨?_, processArrayCell_ok_bare v arr m M hdec hm hM⟩
  rw [processArrayCell_empty_bounds]
  exact processArrayCell_ok_none v arr m M hdec hm hM

/-- C7 amended witness: a concrete empty bound mapping passes the decoded
value 3 through unchanged, and a concrete bare constraints entry turns it
into NaN. -/
theorem missing_bounds_behavior_witness :
    processArrayCell (some (some ⟨none, none⟩)) (CellVal.nativeSeq [some 3]) =
      some (some 3, some 3) ∧
    processArrayCell (some none) (CellVal.nativeSeq [some 3]) = some (none, none) :=
  missing_bounds_behavior.2.2 (CellVal.nativeSeq [some 3]) [some 3] 3 3
    (by decide) (by decide) (by decide)

/-- A left fold of min lands on its seed or one of the folded elements. -/
theorem foldlMin_mem (as : List ℚ) : ∀ a : ℚ, as.foldl min a ∈ a :: as := by
  induction as with
  | nil => intro a; simp
  | cons b bs ih =>
      intro a
      simp only [List.foldl_cons]
      rcases List.mem_cons.mp (ih (min a b)) with h1 | h1
      · rcases min_choice a b with h | h
        · rw [h1, h]; exact List.mem_cons_self _ _
        · rw [h1, h]; exact List.mem_cons_of_mem _ (List.mem_cons_self _ _)
      · exact List.mem_cons_of_mem _ (List.mem_cons_of_mem _ h1)

/-- A left fold of min is a lower bound of its seed and folded elements. -/
theorem foldlMin_le (as : List ℚ) : ∀ a x : ℚ, x ∈ a :: as → as.foldl min a ≤ x := by
  induction as with
  | nil =>
      intro a x hx
      have : x = a := by simpa using hx
      simp [this]
  | cons b bs ih =>
      intro a x hx
      simp only [List.foldl_cons]
      have hseed : bs.foldl min (min a b) ≤ min a b :=
        ih (min a b) (min a b) (List.mem_cons_self _ _)
      rcases List.mem_cons.mp hx with h | h
      · subst h; exact le_trans hseed (min_le_left _ _)
      · rcases List.mem_cons.mp h with h2 | h2
        · subst h2; exact le_trans hseed (min_le_right _ _)
        · exact ih (min a b) x (List.mem_cons_of_mem _ h2)

/-- A left fold of max lands on its seed or one of the folded elements. -/
theorem foldlMax_mem (as : List ℚ) : ∀ a : ℚ, as.foldl max a ∈ a :: as := by
  induction as with
  | nil => intro a; simp
  | cons b bs ih =>
      intro a
      simp only [List.foldl_cons]
      rcases List.mem_cons.mp (ih (max a b)) with h1 | h1
      · rcases max_choice a b with h | h
        · rw [h1, h]; exact List.mem_cons_self _ _
        · rw [h1, h]; exact List.mem_cons_of_mem _ (List.mem_cons_self _ _)
      · exact List.mem_cons_of_mem _ (List.mem_cons_of_mem _ h1)

/-- A left fold of max is an upper bound of its seed and folded elements. -/
theorem le_foldlMax (as : List ℚ) : ∀ a x : ℚ, x ∈ a :: as → x ≤ as.foldl max a := by
  induction as with
  | nil =>
      intro a x hx
      have : x = a := by simpa using hx
      simp [this]
  | cons b bs ih =>
      intro a x hx
      simp only [List.foldl_cons]
      have hseed : max a b ≤ bs.foldl max (max a b) :=
        ih (max a b) (max a b) (List.mem_cons_self _ _)
      rcases List.mem_cons.mp hx with h | h
      · subst h; exact le_trans (le_max_left _ _) hseed
      · rcases List.mem_cons.mp h with h2 | h2
        · subst h2; exact le_trans (le_max_right _ _) hseed
        · exact ih (max a b) x (List.mem_cons_of_mem _ h2)

/-- Wrapping every element of a rational list as a finite float gives it
back as its own finite-value list. -/
theorem finiteVals_map_some (l : List ℚ) : finiteVals (l.map some) = l := by
  simp [finiteVals]

/-- C9: decoding a bracket-delimited whitespace-separated encoding of a
finite numeric sequence with more than one element (on which the literal
parse fails, so the bracket branch of lines 221-232 decodes it) yields as
the min and max entries of that row exactly the minimum and the maximum of
the sequence. -/
theorem bracket_roundtrip_min_max (xs : List ℚ) (hk : 1 < xs.length) :
    ∃ m M : ℚ,
      processArrayCell none (CellVal.strBracket (xs.map some)) = some (some m, some M) ∧
      m ∈ xs ∧ M ∈ xs ∧ ∀ a ∈ xs, m ≤ a ∧ a ≤ M := by
  cases xs with
  | nil => simp at hk
  | cons x xs' =>
      refine ⟨xs'.foldl min x, xs'.foldl max x, ?_, foldlMin_mem xs' x, foldlMax_mem xs' x, ?_⟩
      · have hm : nanminQ ((x :: xs').map some) = some (xs'.foldl min x) := by
          simp [nanminQ, finiteVals]
        have hM : nanmaxQ ((x :: xs').map some) = some (xs'.foldl max x) := by
          simp [nanmaxQ, finiteVals]
        exact processArrayCell_ok_none _ _ _ _ rfl hm hM
      · intro a ha
        exact ⟨foldlMin_le xs' x a ha, le_foldlMax xs' x a ha⟩

/-- C9 witness: the three-element sequence (3, 1, 2) decodes to min 1 and
max 3. -/
theorem bracket_roundtrip_min_max_witness :
    ∃ m M : ℚ,
      processArrayCell none (CellVal.strBracket (([3, 1, 2] : List ℚ).map some)) =
        some (some m, some M) ∧
      m ∈ ([3, 1, 2] : List ℚ) ∧ M ∈ ([3, 1, 2] : List ℚ) ∧
      ∀ a ∈ ([3, 1, 2] : List ℚ), m ≤ a ∧ a ≤ M :=
  bracket_roundtrip_min_max [3, 1, 2] (by decide)

/-- C10: bound filtering of array-derived min and max values is decided
solely by membership of the base name in the constraints group: when the
constraints group carries a bound entry for the base name, the filter is
applied, and if the base name also appears in the objectives group the
reported category is still objectives by first-match precedence; when the
base name is absent from the constraints group, processing is identical to
having no constraint at all, whatever bound entries the objectives or
design_vars groups carry. -/
theorem bound_filtering_by_constraints_membership :
    (∀ (yaml : Option YamlData) (base : String) (b : BoundPair) (v : CellVal)
        (arr : List RVal) (m M : ℚ),
      constraintEntry yaml base = some (some b) →
      decodeCell v = DecodeResult.ok arr →
      nanminQ arr = some m → nanmaxQ arr = some M →
      processArrayCell (constraintEntry yaml base) v =
        some ((if inBounds b m then some m else none),
              (if inBounds b M then some M else none)) ∧
      ((objectivesNames yaml).contains base = true →
        get_category yaml base = some "objectives")) ∧
    (∀ (yaml : Option YamlData) (base : String),
      (constraintsNames yaml).contains base = false →
      ∀ v : CellVal,
        processArrayCell (constraintEntry yaml base) v = processArrayCell none v) := by
  constructor
  · intro yaml base b v arr m M hentry hdec hm hM
    constructor
    · rw [hentry]
      exact processArrayCell_ok_bounds b v arr m M hdec hm hM
    · intro hobj
      have hmem : base ∈ objectivesNames yaml := by simpa using hobj
      simp [get_category, hmem]
  · intro yaml base h v
    rw [constraintEntry_none_of_not_mem yaml base h]

/-- Key membership agrees with lookup success in the ordered-dict model. -/
theorem dictMem_eq_isSome {α : Type} (m : List (String × α)) (k : String) :
    dictMem m k = (lookupVar m k).isSome := by
  induction m with
  | nil => rfl
  | cons p rest ih =>
      cases h : (p.1 == k) with
      | true => simp [dictMem, lookupVar, List.find?, h]
      | false => simpa [dictMem, lookupVar, List.find?, h] using ih

/-- Key membership agrees with membership in the key list. -/
theorem dictMem_iff_mem_keys {α : Type} (m : List (String × α)) (k : String) :
    dictMem m k = true ↔ k ∈ m.map (fun p => p.1) := by
  simp [dictMem, List.any_eq_true]

/-- Updating a key leaves the key list unchanged when the key is present,
and appends the key when it is absent. -/
theorem dictUpdate_keys {α : Type} (m : List (String × α)) (k : String) (v : α) :
    (dictUpdate m k v).map (fun p => p.1) =
      if dictMem m k then m.map (fun p => p.1) else m.map (fun p => p.1) ++ [k] := by
  induction m with
  | nil => simp [dictUpdate, dictMem]
  | cons p rest ih =>
      cases h : (p.1 == k) with
      | true =>
          have : p.1 = k := by simpa using h
          simp [dictUpdate, dictMem, h, this]
      | false =>
          have hstep : dictUpdate (p :: rest) k v = p :: dictUpdate rest k v := by
            simp [dictUpdate, h]
          have hmem : dictMem (p :: rest) k = dictMem rest k := by
            simp [dictMem, h]
          rw [hstep, List.map_cons, ih, hmem]
          cases h2 : dictMem rest k <;> simp

/-- Appending a token to an entry leaves the key list unchanged. -/
theorem dictAppendVar_keys (m : List (String × VarConfig)) (k var : String) :
    (dictAppendVar m k var).map (fun p => p.1) = m.map (fun p => p.1) := by
  induction m with
  | nil => rfl
  | cons p rest ih =>
      cases p with
      | mk k' cfg =>
          by_cases h : (k' == k) = true
          · simp [dictAppendVar, h]
          · have h' : (k' == k) = false := by simpa using h
            simp [dictAppendVar, h', ih]

/-- Lookup after updating the same key yields the new value. -/
theorem lookupVar_dictUpdate_self {α : Type} (m : List (String × α)) (k : String) (v : α) :
    lookupVar (dictUpdate m k v) k = some v := by
  induction m with
  | nil => simp [dictUpdate, lookupVar, List.find?]
  | cons p rest ih =>
      by_cases h : (p.1 == k) = true
      · simp [dictUpdate, h, lookupVar, List.find?]
      · have h' : (p.1 == k) = false := by simpa using h
        simpa [dictUpdate, h', lookupVar, List.find?] using ih

/-- Lookup of another key is unchanged by an update. -/
theorem lookupVar_dictUpdate_ne {α : Type} (m : List (String × α)) {k k' : String} (v : α)
    (h : k' ≠ k) : lookupVar (dictUpdate m k v) k' = lookupVar m k' := by
  have hk : (k == k') = false := beq_eq_false_iff_ne.mpr (Ne.symm h)
  induction m with
  | nil => simp [dictUpdate, lookupVar, List.find?, hk]
  | cons p rest ih =>
      by_cases hp : (p.1 == k) = true
      · have hp1 : p.1 = k := by simpa using hp
        have hp2 : (p.1 == k') = false := by rw [hp1]; exact hk
        simp [dictUpdate, hp, lookupVar, List.find?, hk, hp2]
      · have hp' : (p.1 == k) = false := by simpa using hp
        by_cases hq : (p.1 == k') = true
        · simp [dictUpdate, hp', lookupVar, List.find?, hq]
        · have hq' : (p.1 == k') = false := by simpa using hq
          simpa [dictUpdate, hp', lookupVar, List.find?, hq'] using ih

/-- Lookup after appending a token to the entry of the same key. -/
theorem lookupVar_dictAppendVar_self (m : List (String × VarConfig)) (k var : String)
    (cfg : VarConfig) (h : lookupVar m k = some cfg) :
    lookupVar (dictAppendVar m k var) k = some ⟨cfg.type, cfg.vars ++ [var]⟩ := by
  induction m with
  | nil => simp [lookupVar, List.find?] at h
  | cons p rest ih =>
      by_cases hp : (p.1 == k) = true
      · have hc : p.2 = cfg := by simpa [lookupVar, List.find?, hp] using h
        cases p with
        | mk k' c =>
            subst hc
            simp [dictAppendVar, lookupVar, List.find?] at hp ⊢
            simp [hp]
      · have hp' : (p.1 == k) = false := by simpa using hp
        have h2 : lookupVar rest k = some cfg := by
          simpa [lookupVar, List.find?, hp'] using h
        cases p with
        | mk k' c =>
            have hp'' : (k' == k) = false := hp'
            simpa [dictAppendVar, hp'', lookupVar, List.find?] using ih h2

/-- Lookup of another key is unchanged by a token append. -/
theorem lookupVar_dictAppendVar_ne (m : List (String × VarConfig)) {k k' : String} (var : String)
    (h : k' ≠ k) : lookupVar (dictAppendVar m k var) k' = lookupVar m k' := by
  induction m with
  | nil => rfl
  | cons p rest ih =>
      cases p with
      | mk a c =>
          by_cases hp : (a == k) = true
          · have hp1 : a = k := by simpa using hp
            have hp2 : (a == k') = false := by
              rw [hp1]; exact beq_eq_false_iff_ne.mpr (Ne.symm h)
            simp [dictAppendVar, hp, lookupVar, List.find?, hp2]
          · have hp' : (a == k) = false := by simpa using hp
            by_cases hq : (a == k') = true
            · simp [dictAppendVar, hp', lookupVar, List.find?, hq]
            · have hq' : (a == k') = false := by simpa using hq
              simpa [dictAppendVar, hp', lookupVar, List.find?, hq'] using ih

/-- A successful lookup in the left part of an append wins. -/
theorem lookupVar_append_left {α : Type} (m1 m2 : List (String × α)) (k : String)
    (h : (lookupVar m1 k).isSome = true) :
    lookupVar (m1 ++ m2) k = lookupVar m1 k := by
  induction m1 with
  | nil => simp [lookupVar] at h
  | cons p rest ih =>
      by_cases hp : (p.1 == k) = true
      · simp [lookupVar, List.find?, hp]
      · have hp' : (p.1 == k) = false := by simpa using hp
        have h2 : (lookupVar rest k).isSome = true := by
          simpa [lookupVar, List.find?, hp'] using h
        simpa [lookupVar, List.find?, hp'] using ih h2

/-- A failed lookup in the left part of an append defers to the right. -/
theorem lookupVar_append_right {α : Type} (m1 m2 : List (String × α)) (k : String)
    (h : lookupVar m1 k = none) :
    lookupVar (m1 ++ m2) k = lookupVar m2 k := by
  induction m1 with
  | nil => rfl
  | cons p rest ih =>
      by_cases hp : (p.1 == k) = true
      · simp [lookupVar, List.find?, hp] at h
      · have hp' : (p.1 == k) = false := by simpa using hp
        have h2 : lookupVar rest k = none := by
          simpa [lookupVar, List.find?, hp'] using h
        simpa [lookupVar, List.find?, hp'] using ih h2

/-- A successful lookup splits the dict at a matching entry. -/
theorem lookupVar_split {α : Type} (m : List (String × α)) (k : String) (v : α)
    (h : lookupVar m k = some v) : ∃ l1 l2, m = l1 ++ (k, v) :: l2 := by
  induction m with
  | nil => simp [lookupVar, List.find?] at h
  | cons p rest ih =>
      cases p with
      | mk a c =>
          by_cases hp : (a == k) = true
          · have hp1 : a = k := by simpa using hp
            have hv : c = v := by simpa [lookupVar, List.find?, hp] using h
            exact ⟨[], rest, by rw [hp1, hv]; rfl⟩
          · have hp' : (a == k) = false := by simpa using hp
            have h2 : lookupVar rest k = some v := by
              simpa [lookupVar, List.find?, hp'] using h
            obtain ⟨l1, l2, rfl⟩ := ih h2
            exact ⟨(a, c) :: l1, l2, rfl⟩

/-- A suffixed token takes the array branch of the selection-parsing
loop. -/
theorem processVarsStep_suffixed (m : List (String × VarConfig)) (var : String)
    (h : isMinMaxToken var = true) :
    processVarsStep m var =
      dictAppendVar
        (if dictMem m (rsplitBase var) then m else m ++ [(rsplitBase var, ⟨"array", []⟩)])
        (rsplitBase var) var := by
  simp [processVarsStep, h]

/-- A bare token takes the regular branch of the selection-parsing loop. -/
theorem processVarsStep_bare (m : List (String × VarConfig)) (var : String)
    (h : isMinMaxToken var = false) :
    processVarsStep m var = dictUpdate m var ⟨"regular", [var]⟩ := by
  simp [processVarsStep, h]

/-- Processing a suffixed token establishes an array entry at its base
name, provided the base either had no entry or already an array entry. -/
theorem step_array_at (m : List (String × VarConfig)) (t : String)
    (hsuf : isMinMaxToken t = true)
    (hQ : lookupVar m (rsplitBase t) = none ∨ ArrayEntryAt m (rsplitBase t)) :
    ArrayEntryAt (processVarsStep m t) (rsplitBase t) := by
  rw [processVarsStep_suffixed m t hsuf]
  rcases hQ with hnone | hA
  · have hmem : dictMem m (rsplitBase t) = false := by
      rw [dictMem_eq_isSome, hnone]; rfl
    rw [hmem]
    have hl : lookupVar (m ++ [(rsplitBase t, (⟨"array", []⟩ : VarConfig))]) (rsplitBase t) =
        some ⟨"array", []⟩ := by
      rw [lookupVar_append_right m _ _ hnone]
      simp [lookupVar, List.find?]
    refine ⟨⟨"array", [t]⟩, ?_, rfl, by simp⟩
    have h2 := lookupVar_dictAppendVar_self _ (rsplitBase t) t _ hl
    simpa using h2
  · obtain ⟨cfg, hl, htype, hvars⟩ := hA
    have hmem : dictMem m (rsplitBase t) = true := by
      rw [dictMem_eq_isSome, hl]; rfl
    rw [hmem]
    refine ⟨⟨cfg.type, cfg.vars ++ [t]⟩,
      by simpa using lookupVar_dictAppendVar_self m (rsplitBase t) t cfg hl,
      htype, by simp⟩

/-- Processing any token that is not a bare occurrence of the base name
preserves an array entry at the base name. -/
theorem step_preserves_array_at (m : List (String × VarConfig)) (base s : String)
    (hs : s = base → isMinMaxToken s = true)
    (hA : ArrayEntryAt m base) :
    ArrayEntryAt (processVarsStep m s) base := by
  by_cases hsuf : isMinMaxToken s = true
  · by_cases hb : rsplitBase s = base
    · subst hb; exact step_array_at m s hsuf (Or.inr hA)
    · obtain ⟨cfg, hl, htype, hvars⟩ := hA
      refine ⟨cfg, ?_, htype, hvars⟩
      rw [processVarsStep_suffixed m s hsuf]
      rw [lookupVar_dictAppendVar_ne _ _ (fun h => hb h.symm)]
      cases hmem : dictMem m (rsplitBase s) with
      | true => simpa [hmem] using hl
      | false =>
          rw [if_neg (by simp [hmem])]
          rw [lookupVar_append_left m _ base (by rw [hl]; rfl)]
          exact hl
  · have hsuf' : isMinMaxToken s = false := by simpa using hsuf
    have hsb : s ≠ base := fun h => by rw [hs h] at hsuf'; cases hsuf'
    obtain ⟨cfg, hl, htype, hvars⟩ := hA
    refine ⟨cfg, ?_, htype, hvars⟩
    rw [processVarsStep_bare m s hsuf']
    rw [lookupVar_dictUpdate_ne m _ (Ne.symm hsb)]
    exact hl

/-- Processing any token that is not a bare occurrence of the base name
preserves the no-entry-or-array-entry invariant at the base name. -/
theorem step_preserves_Q (m : List (String × VarConfig)) (base s : String)
    (hs : s = base → isMinMaxToken s = true)
    (hQ : lookupVar m base = none ∨ ArrayEntryAt m base) :
    lookupVar (processVarsStep m s) base = none ∨
      ArrayEntryAt (processVarsStep m s) base := by
  rcases hQ with hnone | hA
  · by_cases hsuf : isMinMaxToken s = true
    · by_cases hb : rsplitBase s = base
      · subst hb; exact Or.inr (step_array_at m s hsuf (Or.inl hnone))
      · left
        rw [processVarsStep_suffixed m s hsuf]
        rw [lookupVar_dictAppendVar_ne _ _ (fun h => hb h.symm)]
        cases hmem : dictMem m (rsplitBase s) with
        | true => simpa [hmem] using hnone
        | false =>
            rw [if_neg (by simp [hmem])]
            rw [lookupVar_append_right m _ _ hnone]
            simp [lookupVar, List.find?, beq_eq_false_iff_ne.mpr hb]
    · have hsuf' : isMinMaxToken s = false := by simpa using hsuf
      have hsb : s ≠ base := fun h => by rw [hs h] at hsuf'; cases hsuf'
      left
      rw [processVarsStep_bare m s hsuf']
      rw [lookupVar_dictUpdate_ne m _ (Ne.symm hsb)]
      exact hnone
  · exact Or.inr (step_preserves_array_at m base s hs hA)

/-- The no-entry-or-array-entry invariant survives a whole fold of the
selection-parsing loop over tokens that are never a bare occurrence of the
base name. -/
theorem foldl_preserves_Q (base : String) (l : List String) :
    ∀ m : List (String × VarConfig),
    (∀ s ∈ l, s = base → isMinMaxToken s = true) →
    (lookupVar m base = none ∨ ArrayEntryAt m base) →
    (lookupVar (l.foldl processVarsStep m) base = none ∨
      ArrayEntryAt (l.foldl processVarsStep m) base) := by
  induction l with
  | nil => intro m _ hQ; exact hQ
  | cons s rest ih =>
      intro m hl hQ
      exact ih _ (fun x hx => hl x (List.mem_cons_of_mem _ hx))
        (step_preserves_Q m base s (hl s (List.mem_cons_self _ _)) hQ)

/-- An array entry survives a whole fold of the selection-parsing loop over
tokens that are never a bare occurrence of the base name. -/
theorem foldl_preserves_array (base : String) (l : List String) :
    ∀ m : List (String × VarConfig),
    (∀ s ∈ l, s = base → isMinMaxToken s = true) →
    ArrayEntryAt m base → ArrayEntryAt (l.foldl processVarsStep m) base := by
  induction l with
  | nil => intro m _ hA; exact hA
  | cons s rest ih =>
      intro m hl hA
      exact ih _ (fun x hx => hl x (List.mem_cons_of_mem _ hx))
        (step_preserves_array_at m base s (hl s (List.mem_cons_self _ _)) hA)

/-- When a suffixed token is selected and no bare token equals its base
name, the parsed selection carries an array entry at the base name with a
nonempty token list. -/
theorem processVars_array_at (sel : List String) (t : String)
    (ht : t ∈ sel) (hsuf : isMinMaxToken t = true)
    (hbare : ∀ s ∈ sel, s = rsplitBase t → isMinMaxToken s = true) :
    ArrayEntryAt (processVars sel) (rsplitBase t) := by
  obtain ⟨l1, l2, rfl⟩ := List.append_of_mem ht
  unfold processVars
  rw [List.foldl_append, List.foldl_cons]
  apply foldl_preserves_array
  · intro s hs hseq
    exact hbare s (List.mem_append_right _ (List.mem_cons_of_mem _ hs)) hseq
  · apply step_array_at _ t hsuf
    apply foldl_preserves_Q
    · intro s hs hseq
      exact hbare s (List.mem_append_left _ hs) hseq
    · left; rfl

/-- One step of the selection-parsing loop keeps the key list
duplicate-free. -/
theorem processVarsStep_keys_nodup (m : List (String × VarConfig)) (s : String)
    (h : (m.map (fun p => p.1)).Nodup) :
    ((processVarsStep m s).map (fun p => p.1)).Nodup := by
  by_cases hsuf : isMinMaxToken s = true
  · rw [processVarsStep_suffixed m s hsuf, dictAppendVar_keys]
    cases hmem : dictMem m (rsplitBase s) with
    | true => simpa [hmem] using h
    | false =>
        rw [if_neg (by simp [hmem])]
        have hnot : rsplitBase s ∉ m.map (fun p => p.1) := by
          intro hin
          rw [(dictMem_iff_mem_keys m (rsplitBase s)).mpr hin] at hmem
          cases hmem
        simp [List.map_append, List.nodup_append, h, hnot]
  · have hsuf' : isMinMaxToken s = false := by simpa using hsuf
    rw [processVarsStep_bare m s hsuf', dictUpdate_keys]
    cases hmem : dictMem m s with
    | true => simpa [hmem] using h
    | false =>
        rw [if_neg (by simp [hmem])]
        have hnot : s ∉ m.map (fun p => p.1) := by
          intro hin
          rw [(dictMem_iff_mem_keys m s).mpr hin] at hmem
          cases hmem
        simp [List.nodup_append, h, hnot]

/-- The parsed selection never carries duplicate keys. -/
theorem processVars_keys_nodup (sel : List String) :
    ((processVars sel).map (fun p => p.1)).Nodup := by
  suffices h : ∀ (l : List String) (m : List (String × VarConfig)),
      (m.map (fun p => p.1)).Nodup →
      ((l.foldl processVarsStep m).map (fun p => p.1)).Nodup by
    exact h sel [] (by simp)
  intro l
  induction l with
  | nil => intro m hm; exact hm
  | cons s rest ih => intro m hm; exact ih _ (processVarsStep_keys_nodup m s hm)

/-- The dimension accumulation splits over appended entry lists. -/
theorem dimsList_append (df : DFrame CellVal) (yaml : Option YamlData)
    (l1 l2 : List (String × VarConfig)) :
    dimsList df yaml (l1 ++ l2) = dimsList df yaml l1 ++ dimsList df yaml l2 := by
  induction l1 with
  | nil => rfl
  | cons e rest ih => simp [dimsList, ih]

/-- The available-token accumulation splits over appended entry lists. -/
theorem availableVars_append (df : DFrame CellVal) (l1 l2 : List (String × VarConfig)) :
    availableVars df (l1 ++ l2) = availableVars df l1 ++ availableVars df l2 := by
  induction l1 with
  | nil => rfl
  | cons e rest ih => simp [availableVars, ih]

/-- An available array entry emits exactly the labeled min/max dimension
pair. -/
theorem entryDims_array (df : DFrame CellVal) (yaml : Option YamlData) (base : String)
    (cfg : VarConfig) (hcol : (columnNames df).contains base = true)
    (htype : cfg.type = "array") :
    entryDims df yaml (base, cfg) =
      [⟨lastSeg base ++ "_min",
        (((df.col base).filterMap (processArrayCell (constraintEntry yaml base))).map
          (fun p => p.1)).map CellVal.scalarVal⟩,
       ⟨lastSeg base ++ "_max",
        (((df.col base).filterMap (processArrayCell (constraintEntry yaml base))).map
          (fun p => p.2)).map CellVal.scalarVal⟩] := by
  have hreg : (cfg.type == "regular") = false := by rw [htype]; rfl
  have hmem : base ∈ columnNames df := by simpa using hcol
  simp [entryDims, hmem, hreg]

/-- Whenever a resolver call returns a result (rather than the Empty
sentinel or the uncaught length-mismatch error), its dimension list is the
accumulated one. -/
theorem prepare_dims_eq_dimsList (df : DFrame CellVal) (sel : List String)
    (yaml : Option YamlData) (ds : List Dimension)
    (h : (prepare_dataframe_for_splom df sel yaml).dims = some ds) :
    ds = dimsList df yaml (processVars sel) := by
  unfold prepare_dataframe_for_splom at h
  by_cases hav : (availableVars df (processVars sel)).isEmpty = true
  · rw [if_pos hav] at h
    simp [SplomOutcome.dims] at h
  · rw [if_neg hav] at h
    cases hfold : (processVars sel).foldl (simpColsStep df yaml) (some ⟨0, []⟩) with
    | none =>
        rw [hfold] at h
        simp [SplomOutcome.dims] at h
    | some fr =>
        rw [hfold] at h
        simp only [SplomOutcome.dims, Option.some.injEq] at h
        exact h.symm

/-- The modelled resolver reproduces the uncaught pandas ValueError: with
a regular two-row column selected before an array column containing an
undecodable cell, the skipped row leaves the min list one short of the
established two-row index, the assignment of line 283 raises outside any
handler, and the call aborts producing no dimensions at all. -/
theorem prepare_raises_on_mixed_selection :
    prepare_dataframe_for_splom dfMixed ["r", "y_min"] none = SplomOutcome.raised := by
  decide

/-- C8 counterexample: when the selection contains both the bare base name
x and the suffixed token x_min, and x is a column, the resolver emits a
single regular dimension labeled x and no x_min or x_max dimension at all:
the bare token overwrites the entry type, so the claimed min/max pair is
not produced. -/
theorem array_and_bare_selection_single_dimension :
    (prepare_dataframe_for_splom dfC8x ["x", "x_min"] none).dims.map
      (fun ds => ds.map (fun d => d.label)) = some ["x"] ∧
    (prepare_dataframe_for_splom dfC8x ["x", "x_min"] none).dims.map
      (fun ds => (ds.filter
        (fun d => d.label == "x_min" || d.label == "x_max")).length) = some 0 :=
  ⟨by decide, by decide⟩

/-- C8 amended: for every selection containing at least one token with a
_min or _max suffix whose base name is a column of the table, PROVIDED no
selected token equals the base name without a _min/_max suffix, AND
PROVIDED the call returns a result at all (it aborts with an uncaught
pandas ValueError when a skipped unparseable row leaves an array min/max
list shorter than an already established index), the parsed selection
holds exactly one entry for that base name, that entry is an array entry,
it emits exactly two Dimensions labeled with the last dot-separated
segment of the base name followed by _min and _max, and the returned
dimension list contains exactly that pair for this entry. -/
theorem array_selection_two_dimensions (df : DFrame CellVal) (sel : List String)
    (yaml : Option YamlData) (t : String) (ds : List Dimension)
    (ht : t ∈ sel) (hsuf : isMinMaxToken t = true)
    (hcol : (columnNames df).contains (rsplitBase t) = true)
    (hbare : ∀ s ∈ sel, s = rsplitBase t → isMinMaxToken s = true)
    (hds : (prepare_dataframe_for_splom df sel yaml).dims = some ds) :
    ∃ cfg : VarConfig,
      lookupVar (processVars sel) (rsplitBase t) = some cfg ∧
      cfg.type = "array" ∧
      ((processVars sel).map (fun p => p.1)).count (rsplitBase t) = 1 ∧
      (∃ vmin vmax : List CellVal,
        entryDims df yaml (rsplitBase t, cfg) =
          [⟨lastSeg (rsplitBase t) ++ "_min", vmin⟩,
           ⟨lastSeg (rsplitBase t) ++ "_max", vmax⟩]) ∧
      ∃ pre post : List Dimension,
        ds = pre ++ entryDims df yaml (rsplitBase t, cfg) ++ post := by
  obtain ⟨cfg, hl, htype, -⟩ := processVars_array_at sel t ht hsuf hbare
  refine ⟨cfg, hl, htype, ?_, ?_, ?_⟩
  · have hnd := processVars_keys_nodup sel
    have hmem : rsplitBase t ∈ (processVars sel).map (fun p => p.1) := by
      rw [← dictMem_iff_mem_keys, dictMem_eq_isSome, hl]; rfl
    exact List.count_eq_one_of_mem hnd hmem
  · exact ⟨_, _, entryDims_array df yaml _ cfg hcol htype⟩
  · obtain ⟨l1, l2, hsplit⟩ := lookupVar_split _ _ _ hl
    have hdl := prepare_dims_eq_dimsList df sel yaml ds hds
    refine ⟨dimsList df yaml l1, dimsList df yaml l2, ?_⟩
    rw [hdl, hsplit, dimsList_append]
    simp [dimsList]

/-- C8 amended witness: selecting only y_max over a table with array
column y returns a result resolving to one array entry for y emitting the
labeled pair of dimensions. -/
theorem array_selection_two_dimensions_witness :
    ∃ cfg : VarConfig,
      lookupVar (processVars ["y_max"]) (rsplitBase "y_max") = some cfg ∧
      cfg.type = "array" ∧
      ((processVars ["y_max"]).map (fun p => p.1)).count (rsplitBase "y_max") = 1 ∧
      (∃ vmin vmax : List CellVal,
        entryDims dfC8w none (rsplitBase "y_max", cfg) =
          [⟨lastSeg (rsplitBase "y_max") ++ "_min", vmin⟩,
           ⟨lastSeg (rsplitBase "y_max") ++ "_max", vmax⟩]) ∧
      ∃ pre post : List Dimension,
        [⟨"y_min", [CellVal.scalarVal (some 1)]⟩, ⟨"y_max", [CellVal.scalarVal (some 2)]⟩] =
          pre ++ entryDims dfC8w none (rsplitBase "y_max", cfg) ++ post :=
  array_selection_two_dimensions dfC8w ["y_max"] none "y_max"
    [⟨"y_min", [CellVal.scalarVal (some 1)]⟩, ⟨"y_max", [CellVal.scalarVal (some 2)]⟩]
    (by decide) (by decide) (by decide) (by decide) (by decide)

/-- C10 witness: with the base name b0 carrying bound [0, 10] in the
constraints group and also listed in the objectives group, the decoded
pair (3, 20) is filtered to (3, NaN) and the category reported is
objectives; with the bounds moved to the objectives group only, no
filtering happens. -/
theorem bound_filtering_by_constraints_membership_witness :
    processArrayCell
        (constraintEntry
          (some ⟨some [("b0", none)], some [("b0", some ⟨some 0, some 10⟩)], none⟩) "b0")
        (CellVal.nativeSeq [some 3, some 20]) = some (some 3, none) ∧
    get_category (some ⟨some [("b0", none)], some [("b0", some ⟨some 0, some 10⟩)], none⟩) "b0" =
      some "objectives" ∧
    processArrayCell
        (constraintEntry (some ⟨some [("b0", some ⟨some 0, some 10⟩)], none, none⟩) "b0")
        (CellVal.nativeSeq [some 3, some 20]) =
      processArrayCell none (CellVal.nativeSeq [some 3, some 20]) := by
  have h1 := (bound_filtering_by_constraints_membership.1
    (some ⟨some [("b0", none)], some [("b0", some ⟨some 0, some 10⟩)], none⟩) "b0"
    ⟨some 0, some 10⟩ (CellVal.nativeSeq [some 3, some 20]) [some 3, some 20] 3 20
    (by decide) (by decide) (by decide) (by decide))
  have h2 := bound_filtering_by_constraints_membership.2
    (some ⟨some [("b0", some ⟨some 0, some 10⟩)], none, none⟩) "b0" (by decide)
    (CellVal.nativeSeq [some 3, some 20])
  refine ⟨?_, h1.2 (by decide), h2⟩
  rw [h1.1]
  decide

end WEIS
